import Mathlib

/-!
Verification of the webhook delivery broker (khabaroff-studio/obsidian-webhooks-server)
against its natural-language specification.

The Go source is shallowly embedded: identifiers (UUIDs) become `Nat`,
timestamps become `Nat` (or `ℚ` milliseconds for the rate limiter),
byte strings become `List Nat`, database tables become lists of rows,
and each handler or service method becomes a pure function on explicit
state.  Fallible Go calls returning `(T, error)` become `Except String T`.
-/

/-! ## Data model (src/models/event.go, src/models/client_key.go, webhook.go) -/

/-- Event mirrors `models.Event`: a stored webhook event row. -/
structure Event where
  id : Nat
  webhookKeyID : Nat
  path : String
  data : List Nat
  processed : Bool
  processedAt : Option Nat
  createdAt : Nat
  expiresAt : Nat
deriving DecidableEq, Repr

/-- ClientKey mirrors `models.ClientKey`: a subscriber key row; `webhookKeyID`
is the paired producer identity. -/
structure ClientKey where
  id : Nat
  keyValue : String
  webhookKeyID : Nat
  status : String
deriving DecidableEq, Repr

/-- DeliveryStatus mirrors the `delivery_status` column of `webhook_logs`. -/
inductive DeliveryStatus where
  | pending
  | delivered
  | failed
  | acked
deriving DecidableEq, Repr

/-- WebhookLog mirrors a `webhook_logs` row (services.WebhookLog / schema.sql). -/
structure WebhookLog where
  eventID : Nat
  webhookKeyID : Nat
  clientKeyID : Option Nat
  deliveryStatus : DeliveryStatus
  statusCode : Option Nat
  attemptedAt : Nat
  deliveredAt : Option Nat
  ackedAt : Option Nat
deriving DecidableEq, Repr

/-! ## Encryption service (src/services/encryption.go)

The Go code wraps `crypto/cipher`'s AES-256-GCM AEAD.  The AEAD itself is
the Go standard library, embedded abstractly as a pair of functions; the
standard GCM nonce size (12) and tag size (16) are the concrete values
`cipher.NewGCM` always uses. -/

/-- Standard GCM nonce size in bytes (`gcm.NonceSize()` for `cipher.NewGCM`). -/
def gcmStandardNonceSize : Nat := 12

/-- Standard GCM tag size in bytes (`gcm.Overhead()` for `cipher.NewGCM`). -/
def gcmTagSize : Nat := 16

/-- GCM abstracts the Go `cipher.AEAD` used by the Encryptor: `Seal nonce p`
returns ciphertext-plus-tag, `Open nonce c` authenticates and decrypts,
failing with `none`. -/
structure GCM where
  Seal : List Nat → List Nat → List Nat
  Open : List Nat → List Nat → Option (List Nat)

/-- Encrypt mirrors `Encryptor.Encrypt`: a nil receiver passes the plaintext
through; otherwise the result is `nonce ++ Seal(nonce, plaintext)` (Go's
`gcm.Seal(nonce, nonce, plaintext, nil)` appends to its first argument).
The freshly sampled random nonce is taken as an argument. -/
def Encrypt (e : Option GCM) (nonce : List Nat) (plaintext : List Nat) : List Nat :=
  match e with
  | none => plaintext
  | some g => nonce ++ g.Seal nonce plaintext

/-- Decrypt mirrors `Encryptor.Decrypt`: nil receiver, too-short input and
authentication failure all pass the raw bytes through; every return path of
the Go function carries a nil error, hence every branch is `.ok`. -/
def Decrypt (e : Option GCM) (ciphertext : List Nat) : Except String (List Nat) :=
  match e with
  | none => .ok ciphertext
  | some g =>
    if ciphertext.length < gcmStandardNonceSize + gcmTagSize then
      .ok ciphertext
    else
      match g.Open (ciphertext.take gcmStandardNonceSize)
          (ciphertext.drop gcmStandardNonceSize) with
      | none => .ok ciphertext
      | some plaintext => .ok plaintext

/-- A concrete AEAD instance used to exhibit the round-trip theorem at a
concrete input: the tag is sixteen zero bytes appended to the plaintext. -/
def tagGCM : GCM where
  Seal := fun _ p => p ++ List.replicate gcmTagSize 0
  Open := fun _ c =>
    if c.drop (c.length - gcmTagSize) = List.replicate gcmTagSize 0 ∧ gcmTagSize ≤ c.length then
      some (c.take (c.length - gcmTagSize))
    else
      none

theorem tagGCM_seal_length (n p : List Nat) :
    (tagGCM.Seal n p).length = p.length + gcmTagSize := by
  simp [tagGCM]

theorem tagGCM_open_seal (n p : List Nat) :
    tagGCM.Open n (tagGCM.Seal n p) = some p := by
  simp [tagGCM]

/-- C7: for every byte string and every fixed key (any AEAD satisfying the
correctness and length laws of `cipher.AEAD`, with a fresh nonce of the
standard size), decrypting an encryption returns the original plaintext. -/
theorem encrypt_decrypt_roundtrip (g : GCM) (nonce b : List Nat)
    (hnonce : nonce.length = gcmStandardNonceSize)
    (hlen : ∀ n p, (g.Seal n p).length = p.length + gcmTagSize)
    (hopen : ∀ n p, g.Open n (g.Seal n p) = some p) :
    Decrypt (some g) (Encrypt (some g) nonce b) = .ok b := by
  have hL : (nonce ++ g.Seal nonce b).length
      = gcmStandardNonceSize + (b.length + gcmTagSize) := by
    simp [hlen, hnonce]
  have hnotshort : ¬ (nonce ++ g.Seal nonce b).length
      < gcmStandardNonceSize + gcmTagSize := by
    omega
  have htake : (nonce ++ g.Seal nonce b).take gcmStandardNonceSize = nonce := by
    rw [← hnonce, List.take_left]
  have hdrop : (nonce ++ g.Seal nonce b).drop gcmStandardNonceSize
      = g.Seal nonce b := by
    rw [← hnonce, List.drop_left]
  simp only [Encrypt, Decrypt, if_neg hnotshort, htake, hdrop, hopen]

/-- C7 witness: the round trip at the concrete AEAD `tagGCM`, an all-zero
nonce, and the plaintext `[1, 2, 3]`. -/
theorem encrypt_decrypt_roundtrip_witness :
    Decrypt (some tagGCM)
      (Encrypt (some tagGCM) (List.replicate gcmStandardNonceSize 0) [1, 2, 3])
      = .ok [1, 2, 3] :=
  encrypt_decrypt_roundtrip tagGCM (List.replicate gcmStandardNonceSize 0) [1, 2, 3]
    (by simp) tagGCM_seal_length tagGCM_open_seal

/-- C8: Decrypt never returns an error, and passes the input through
unchanged when the encryptor is nil, when the input is shorter than the
minimum sealed size (nonce plus tag, 12 + 16 = 28 bytes), and when
authenticated decryption fails. -/
theorem decrypt_never_errors_passthrough (g : GCM) (b : List Nat) :
    Decrypt none b = .ok b
    ∧ (b.length < gcmStandardNonceSize + gcmTagSize → Decrypt (some g) b = .ok b)
    ∧ (g.Open (b.take gcmStandardNonceSize) (b.drop gcmStandardNonceSize) = none →
        Decrypt (some g) b = .ok b)
    ∧ (∀ e : Option GCM, (Decrypt e b).isOk = true) := by
  refine ⟨rfl, fun h => by simp [Decrypt, if_pos h], fun h => ?_, fun e => ?_⟩
  · simp only [Decrypt]
    split
    · rfl
    · rw [h]
  · cases e with
    | none => rfl
    | some g' =>
      simp only [Decrypt]
      split
      · rfl
      · split <;> rfl

/-- C8 witness: the pass-through cases evaluated at `tagGCM` and the two-byte
input `[5, 6]`, which is shorter than the 28-byte minimum sealed size. -/
theorem decrypt_never_errors_passthrough_witness :
    Decrypt (some tagGCM) [5, 6] = .ok [5, 6] ∧ Decrypt none [5, 6] = .ok [5, 6] :=
  ⟨(decrypt_never_errors_passthrough tagGCM [5, 6]).2.1 (by decide),
   (decrypt_never_errors_passthrough tagGCM [5, 6]).1⟩

/-! ## Event store and delivery log over explicit database state
(src/services/event_service.go, src/services/key_service.go) -/

/-- ServerState is the durable database state the handlers operate on: the
`events` table and the `webhook_logs` table as lists of rows. -/
structure ServerState where
  events : List Event
  logs : List WebhookLog
deriving DecidableEq, Repr

/-- decryptEventData mirrors `EventService.decryptEventData`: decrypt the
`Data` field of a fetched event in place. -/
def decryptEventData (enc : Option GCM) (e : Event) : Except String Event :=
  (Decrypt enc e.data).map (fun d => { e with data := d })

/-- getEventByID mirrors `EventService.GetEventByID`: select the row with the
given id (error when absent) and decrypt its payload. -/
def getEventByID (enc : Option GCM) (s : ServerState) (eventID : Nat) :
    Except String Event :=
  match s.events.find? (fun e => e.id = eventID) with
  | none => .error "event not found"
  | some e => decryptEventData enc e

/-- markProcessedRow is the per-row effect of the SQL
`UPDATE events SET processed = true, processed_at = $1 WHERE id = $2`. -/
def markProcessedRow (eventID now : Nat) (e : Event) : Event :=
  if e.id = eventID then { e with processed := true, processedAt := some now } else e

/-- markEventAsProcessed mirrors `EventService.MarkEventAsProcessed`: run the
update; when no row was affected report `event not found`. -/
def markEventAsProcessed (s : ServerState) (eventID now : Nat) :
    Except String ServerState :=
  if s.events.any (fun e => e.id = eventID) then
    .ok { s with events := s.events.map (markProcessedRow eventID now) }
  else
    .error "event not found"

/-- createWebhookLog mirrors `KeyService.CreateWebhookLog`: a new row in
state `pending` with `attempted_at = NOW()` and no delivery timestamps. -/
def createWebhookLog (eventID webhookKeyID statusCode now : Nat) : WebhookLog :=
  { eventID := eventID, webhookKeyID := webhookKeyID, clientKeyID := none,
    deliveryStatus := .pending, statusCode := some statusCode,
    attemptedAt := now, deliveredAt := none, ackedAt := none }

/-- updateWebhookLogDeliveredRow is the per-row effect of
`KeyService.UpdateWebhookLogDelivered`: only rows matching the event and
producer key that are still `pending` are advanced to `delivered`. -/
def updateWebhookLogDeliveredRow (eventID webhookKeyID clientKeyID now : Nat)
    (l : WebhookLog) : WebhookLog :=
  if l.eventID = eventID ∧ l.webhookKeyID = webhookKeyID
      ∧ l.deliveryStatus = .pending then
    { l with deliveryStatus := .delivered, deliveredAt := some now,
             clientKeyID := some clientKeyID }
  else l

/-- updateWebhookLogAckedRow is the per-row effect of
`KeyService.UpdateWebhookLogAcked`: only rows for the event whose state is
`pending` or `delivered` are advanced to `acked`. -/
def updateWebhookLogAckedRow (eventID now : Nat) (l : WebhookLog) : WebhookLog :=
  if l.eventID = eventID
      ∧ (l.deliveryStatus = .pending ∨ l.deliveryStatus = .delivered) then
    { l with deliveryStatus := .acked, ackedAt := some now }
  else l

/-- updateWebhookLogAcked applies the acked update to the whole log table. -/
def updateWebhookLogAcked (s : ServerState) (eventID now : Nat) : ServerState :=
  { s with logs := s.logs.map (updateWebhookLogAckedRow eventID now) }

/-! ## ACK endpoint (src/handlers/ack.go) -/

/-- AckResponse is the HTTP response of the ACK endpoint. -/
inductive AckResponse where
  | badRequest (msg : String)
  | unauthorized (msg : String)
  | notFound (msg : String)
  | forbidden (msg : String)
  | okAcknowledged (eventID : Nat)
deriving DecidableEq, Repr

/-- handleACK mirrors `ACKHandler.HandleACK` after event-id parsing and
client-key resolution (`ck` is the resolved subscriber key row): load the
event (404 when absent), reject with 403 when its producer key differs from
the subscriber's paired key, mark it processed — answering 200 even when
that write fails — and otherwise advance the delivery log to acked.
`sGet` is the database state seen by the read and `sMark` the state at the
write; a sequential, uninterfered call has `sGet = sMark`. -/
def handleACK (enc : Option GCM) (sGet sMark : ServerState) (ck : ClientKey)
    (eventID now : Nat) : AckResponse × ServerState :=
  match getEventByID enc sGet eventID with
  | .error _ => (.notFound "event not found", sMark)
  | .ok event =>
    if event.webhookKeyID ≠ ck.webhookKeyID then
      (.forbidden "event does not belong to this client", sMark)
    else
      match markEventAsProcessed sMark eventID now with
      | .error _ => (.okAcknowledged eventID, sMark)
      | .ok s' => (.okAcknowledged eventID, updateWebhookLogAcked s' eventID now)

theorem Decrypt_exists_ok (e : Option GCM) (b : List Nat) :
    ∃ v, Decrypt e b = .ok v := by
  cases e with
  | none => exact ⟨b, rfl⟩
  | some g =>
    simp only [Decrypt]
    split
    · exact ⟨b, rfl⟩
    · split
      · exact ⟨b, rfl⟩
      · exact ⟨_, rfl⟩

theorem getEventByID_ok (enc : Option GCM) (s : ServerState) (eventID : Nat)
    (event : Event)
    (hfind : s.events.find? (fun e => e.id = eventID) = some event) :
    ∃ d, getEventByID enc s eventID = .ok { event with data := d } := by
  obtain ⟨v, hv⟩ := Decrypt_exists_ok enc event.data
  exact ⟨v, by simp [getEventByID, hfind, decryptEventData, hv, Except.map]⟩

theorem find?_markProcessedRow (events : List Event) (eventID now : Nat) :
    (events.map (markProcessedRow eventID now)).find? (fun e => e.id = eventID)
      = (events.find? (fun e => e.id = eventID)).map (markProcessedRow eventID now) := by
  rw [List.find?_map]
  have hp : ((fun e => decide (e.id = eventID)) ∘ markProcessedRow eventID now)
      = fun e => decide (e.id = eventID) := by
    funext e
    by_cases h : e.id = eventID <;> simp [markProcessedRow, h, Function.comp]
  rw [hp]

/-- C2: an ACK for an existing event whose producer key is not the one paired
with the subscriber's key answers Forbidden and leaves the whole state
unchanged; an ACK for a paired event answers 200 acknowledged, sets the
event's processed flag (with its timestamp), and leaves every delivery-log
row of that event in state acked. -/
theorem ack_forbidden_or_acked (enc : Option GCM) (s : ServerState) (ck : ClientKey)
    (event : Event) (eventID now : Nat)
    (hfind : s.events.find? (fun e => e.id = eventID) = some event)
    (hlogs : ∀ l ∈ s.logs, l.eventID = eventID → l.deliveryStatus ≠ .failed) :
    (event.webhookKeyID ≠ ck.webhookKeyID →
      handleACK enc s s ck eventID now
        = (.forbidden "event does not belong to this client", s))
    ∧ (event.webhookKeyID = ck.webhookKeyID →
      (handleACK enc s s ck eventID now).1 = .okAcknowledged eventID
      ∧ (handleACK enc s s ck eventID now).2.events.find? (fun e => e.id = eventID)
          = some { event with processed := true, processedAt := some now }
      ∧ ∀ l ∈ (handleACK enc s s ck eventID now).2.logs,
          l.eventID = eventID → l.deliveryStatus = .acked) := by
  obtain ⟨d, hget⟩ := getEventByID_ok enc s eventID event hfind
  have hid : event.id = eventID := by
    have := List.find?_some hfind
    simpa using this
  have hmem : event ∈ s.events := List.mem_of_find?_eq_some hfind
  have hany : s.events.any (fun e => e.id = eventID) = true :=
    List.any_eq_true.2 ⟨event, hmem, by simpa using hid⟩
  constructor
  · intro hne
    simp [handleACK, hget, hne]
  · intro heq
    have hrun : handleACK enc s s ck eventID now
        = (.okAcknowledged eventID,
           updateWebhookLogAcked
             { s with events := s.events.map (markProcessedRow eventID now) }
             eventID now) := by
      simp [handleACK, hget, heq, markEventAsProcessed, hany]
    refine ⟨by rw [hrun], ?_, ?_⟩
    · rw [hrun]
      simp only [updateWebhookLogAcked, find?_markProcessedRow, hfind, Option.map_some]
      simp [markProcessedRow, hid]
    · rw [hrun]
      intro l hl hleid
      simp only [updateWebhookLogAcked, List.mem_map] at hl
      obtain ⟨l₀, hl₀mem, rfl⟩ := hl
      have hl₀eid : l₀.eventID = eventID := by
        by_cases h : l₀.eventID = eventID
        · exact h
        · simp [updateWebhookLogAckedRow, h] at hleid
      have hnotfailed := hlogs l₀ hl₀mem hl₀eid
      cases hst : l₀.deliveryStatus <;>
        simp [updateWebhookLogAckedRow, hl₀eid, hst] at hnotfailed ⊢

/-- A concrete unprocessed event row used to evaluate the handlers. -/
def ev0 : Event :=
  { id := 1, webhookKeyID := 7, path := "inbox/a.md", data := [104, 105],
    processed := false, processedAt := none, createdAt := 0, expiresAt := 100 }

/-- A concrete pending delivery-log row for `ev0`. -/
def log0 : WebhookLog := createWebhookLog 1 7 200 0

/-- A concrete subscriber key paired with producer key 7. -/
def ck0 : ClientKey :=
  { id := 2, keyValue := "ck_A", webhookKeyID := 7, status := "active" }

/-- A concrete subscriber key paired with a different producer key (8). -/
def ckB : ClientKey :=
  { id := 3, keyValue := "ck_B", webhookKeyID := 8, status := "active" }

/-- The concrete initial database state: one pending event and its log row. -/
def s0 : ServerState := { events := [ev0], logs := [log0] }

/-- C2 witness: the Forbidden case for the unpaired key `ckB` and the 200
acknowledged case for the paired key `ck0`, both at the concrete state. -/
theorem ack_forbidden_or_acked_witness :
    handleACK none s0 s0 ckB 1 5
      = (.forbidden "event does not belong to this client", s0)
    ∧ (handleACK none s0 s0 ck0 1 5).1 = .okAcknowledged 1 :=
  ⟨(ack_forbidden_or_acked none s0 ckB ev0 1 5 (by decide) (by decide)).1 (by decide),
   ((ack_forbidden_or_acked none s0 ck0 ev0 1 5 (by decide) (by decide)).2 (by decide)).1⟩

theorem markProcessedRow_idem (eventID t : Nat) (e : Event) :
    markProcessedRow eventID t (markProcessedRow eventID t e)
      = markProcessedRow eventID t e := by
  by_cases h : e.id = eventID <;> simp [markProcessedRow, h]

theorem markProcessedRow_webhookKeyID (eventID t : Nat) (e : Event) :
    (markProcessedRow eventID t e).webhookKeyID = e.webhookKeyID := by
  by_cases h : e.id = eventID <;> simp [markProcessedRow, h]

theorem updateWebhookLogAckedRow_idem (eventID t1 t2 : Nat) (l : WebhookLog) :
    updateWebhookLogAckedRow eventID t2 (updateWebhookLogAckedRow eventID t1 l)
      = updateWebhookLogAckedRow eventID t1 l := by
  by_cases h : l.eventID = eventID
      ∧ (l.deliveryStatus = .pending ∨ l.deliveryStatus = .delivered) <;>
    simp [updateWebhookLogAckedRow, h]

/-- Computation of a successful sequential ACK: both tables are rewritten by
the corresponding per-row updates. -/
theorem handleACK_run (enc : Option GCM) (s : ServerState) (ck : ClientKey)
    (event : Event) (eventID now : Nat)
    (hfind : s.events.find? (fun e => e.id = eventID) = some event)
    (hown : event.webhookKeyID = ck.webhookKeyID) :
    handleACK enc s s ck eventID now
      = (.okAcknowledged eventID,
         { events := s.events.map (markProcessedRow eventID now),
           logs := s.logs.map (updateWebhookLogAckedRow eventID now) }) := by
  obtain ⟨d, hget⟩ := getEventByID_ok enc s eventID event hfind
  have hmem := List.mem_of_find?_eq_some hfind
  have hid : event.id = eventID := by simpa using List.find?_some hfind
  have hany : s.events.any (fun e => e.id = eventID) = true :=
    List.any_eq_true.2 ⟨event, hmem, by simpa using hid⟩
  simp [handleACK, hget, hown, markEventAsProcessed, hany, updateWebhookLogAcked]

/-- C4 counterexample: acknowledging the same event twice, at times 0 and 1,
returns the same response but leaves a different final state than a single
ACK — the second call overwrites the event's processed-at timestamp. -/
theorem ack_twice_changes_processed_at :
    ((handleACK none (handleACK none s0 s0 ck0 1 0).2
        (handleACK none s0 s0 ck0 1 0).2 ck0 1 1).1
      = (handleACK none s0 s0 ck0 1 0).1)
    ∧ ((handleACK none (handleACK none s0 s0 ck0 1 0).2
        (handleACK none s0 s0 ck0 1 0).2 ck0 1 1).2
      ≠ (handleACK none s0 s0 ck0 1 0).2) := by
  decide

/-- C4 amended: a repeated ACK of a paired, existing event returns the same
response as the first and changes nothing except the event's processed-at
timestamp, which is overwritten with the second call's time; two calls at
the same timestamp leave exactly the state of a single call. -/
theorem ack_idempotent_up_to_processed_at (enc : Option GCM) (s : ServerState)
    (ck : ClientKey) (event : Event) (eventID t1 t2 : Nat)
    (hfind : s.events.find? (fun e => e.id = eventID) = some event)
    (hown : event.webhookKeyID = ck.webhookKeyID) :
    (handleACK enc (handleACK enc s s ck eventID t1).2
        (handleACK enc s s ck eventID t1).2 ck eventID t2).1
      = (handleACK enc s s ck eventID t1).1
    ∧ (handleACK enc (handleACK enc s s ck eventID t1).2
        (handleACK enc s s ck eventID t1).2 ck eventID t2).2.logs
      = (handleACK enc s s ck eventID t1).2.logs
    ∧ (handleACK enc (handleACK enc s s ck eventID t1).2
        (handleACK enc s s ck eventID t1).2 ck eventID t2).2.events
      = (handleACK enc s s ck eventID t1).2.events.map (markProcessedRow eventID t2)
    ∧ (t2 = t1 →
        (handleACK enc (handleACK enc s s ck eventID t1).2
          (handleACK enc s s ck eventID t1).2 ck eventID t2).2
        = (handleACK enc s s ck eventID t1).2) := by
  have h1 := handleACK_run enc s ck event eventID t1 hfind hown
  have hfind1 : (handleACK enc s s ck eventID t1).2.events.find?
      (fun e => e.id = eventID) = some (markProcessedRow eventID t1 event) := by
    simp only [h1]
    rw [find?_markProcessedRow, hfind]
    rfl
  have hown1 : (markProcessedRow eventID t1 event).webhookKeyID = ck.webhookKeyID := by
    rw [markProcessedRow_webhookKeyID]
    exact hown
  have h2 := handleACK_run enc (handleACK enc s s ck eventID t1).2 ck
    (markProcessedRow eventID t1 event) eventID t2 hfind1 hown1
  refine ⟨?_, ?_, ?_, ?_⟩
  · rw [h2, h1]
  · rw [h2, h1]
    simp only [List.map_map]
    have hcomp : (updateWebhookLogAckedRow eventID t2 ∘ updateWebhookLogAckedRow eventID t1)
        = updateWebhookLogAckedRow eventID t1 :=
      funext (fun l => updateWebhookLogAckedRow_idem eventID t1 t2 l)
    rw [hcomp]
  · rw [h2]
  · intro ht
    subst ht
    rw [h2, h1]
    refine congrArg₂ ServerState.mk ?_ ?_
    · simp only [List.map_map]
      exact congrArg₂ List.map
        (funext (fun e => markProcessedRow_idem eventID t2 e)) rfl
    · simp only [List.map_map]
      exact congrArg₂ List.map
        (funext (fun l => updateWebhookLogAckedRow_idem eventID t2 t2 l)) rfl

/-- C4 witness for the amended theorem: repeating the ACK at the same
timestamp 5 leaves exactly the state of a single ACK. -/
theorem ack_idempotent_up_to_processed_at_witness :
    (handleACK none (handleACK none s0 s0 ck0 1 5).2
        (handleACK none s0 s0 ck0 1 5).2 ck0 1 5).2
      = (handleACK none s0 s0 ck0 1 5).2 :=
  (ack_idempotent_up_to_processed_at none s0 ck0 ev0 1 5 5
    (by decide) (by decide)).2.2.2 rfl

/-- C10: when the event exists and is paired at the read but the processed
write fails (here: the row is gone at write time, e.g. deleted concurrently),
the endpoint still answers 200 acknowledged, skips the delivery-log update,
and changes no state — so the 200 does not guarantee the flag was set. -/
theorem ack_write_failure_still_acknowledged (enc : Option GCM)
    (sGet sMark : ServerState) (ck : ClientKey) (event : Event) (eventID now : Nat)
    (hfind : sGet.events.find? (fun e => e.id = eventID) = some event)
    (hown : event.webhookKeyID = ck.webhookKeyID)
    (hgone : sMark.events.any (fun e => e.id = eventID) = false) :
    handleACK enc sGet sMark ck eventID now = (.okAcknowledged eventID, sMark) := by
  obtain ⟨d, hget⟩ := getEventByID_ok enc sGet eventID event hfind
  simp [handleACK, hget, hown, markEventAsProcessed, hgone]

/-- C10 witness: the event was deleted between the read and the write; the
response is still 200 acknowledged and the log row stays pending. -/
theorem ack_write_failure_still_acknowledged_witness :
    handleACK none s0 { events := [], logs := [log0] } ck0 1 5
      = (.okAcknowledged 1, { events := [], logs := [log0] }) :=
  ack_write_failure_still_acknowledged none s0 { events := [], logs := [log0] }
    ck0 ev0 1 5 (by decide) (by decide) (by decide)

/-! ## Delivery-log state machine (C6) -/

/-- LogOp enumerates the two updates the code performs on a log row after
creation: `UpdateWebhookLogDelivered` and `UpdateWebhookLogAcked`. -/
inductive LogOp where
  | delivered (eventID webhookKeyID clientKeyID now : Nat)
  | acked (eventID now : Nat)

/-- applyLogOp applies one update to one row. -/
def applyLogOp (l : WebhookLog) : LogOp → WebhookLog
  | .delivered e w c t => updateWebhookLogDeliveredRow e w c t l
  | .acked e t => updateWebhookLogAckedRow e t l

/-- statusRank orders the delivery states as the spec does: pending <
delivered < acked; `failed` is terminal and never written by these paths. -/
def statusRank : DeliveryStatus → Nat
  | .pending => 0
  | .delivered => 1
  | .acked => 2
  | .failed => 3

/-- LogTimestampInv ties each timestamp to the states that can still reach
it; it holds at creation and is preserved by every update. -/
def LogTimestampInv (l : WebhookLog) : Prop :=
  (l.deliveryStatus = .pending → l.deliveredAt = none ∧ l.ackedAt = none)
  ∧ (l.deliveryStatus = .delivered → l.ackedAt = none)

/-- C6: the delivered update is the identity on rows not in state pending,
the acked update the identity on rows neither pending nor delivered, every
operation advances the state monotonically in the order pending < delivered
< acked, and the delivered-at and acked-at timestamps are written exactly at
the transition into the corresponding state and never modified afterwards
(for rows satisfying the creation invariant, which both updates preserve). -/
theorem webhook_log_monotone_timestamps_once (l : WebhookLog) (op : LogOp) :
    (∀ e w c t, l.deliveryStatus ≠ .pending →
        updateWebhookLogDeliveredRow e w c t l = l)
    ∧ (∀ e t, l.deliveryStatus ≠ .pending → l.deliveryStatus ≠ .delivered →
        updateWebhookLogAckedRow e t l = l)
    ∧ statusRank l.deliveryStatus ≤ statusRank (applyLogOp l op).deliveryStatus
    ∧ (∀ e w s t, LogTimestampInv (createWebhookLog e w s t))
    ∧ (LogTimestampInv l → LogTimestampInv (applyLogOp l op))
    ∧ (LogTimestampInv l → ∀ t, l.deliveredAt = some t →
        (applyLogOp l op).deliveredAt = some t)
    ∧ (LogTimestampInv l → ∀ t, l.ackedAt = some t →
        (applyLogOp l op).ackedAt = some t)
    ∧ ((applyLogOp l op).deliveredAt ≠ l.deliveredAt →
        l.deliveryStatus = .pending ∧ (applyLogOp l op).deliveryStatus = .delivered)
    ∧ ((applyLogOp l op).ackedAt ≠ l.ackedAt →
        (l.deliveryStatus = .pending ∨ l.deliveryStatus = .delivered)
        ∧ (applyLogOp l op).deliveryStatus = .acked) := by
  have hdel : ∀ e w c t, l.deliveryStatus ≠ .pending →
      updateWebhookLogDeliveredRow e w c t l = l := by
    intro e w c t h
    simp only [updateWebhookLogDeliveredRow]
    rw [if_neg]
    rintro ⟨-, -, h3⟩
    exact h h3
  have hack : ∀ e t, l.deliveryStatus ≠ .pending → l.deliveryStatus ≠ .delivered →
      updateWebhookLogAckedRow e t l = l := by
    intro e t h1 h2
    simp only [updateWebhookLogAckedRow]
    rw [if_neg]
    rintro ⟨-, h3 | h3⟩
    · exact h1 h3
    · exact h2 h3
  refine ⟨hdel, hack, ?_, ?_, ?_, ?_, ?_, ?_, ?_⟩
  · cases op with
    | delivered e w c t =>
      by_cases h : l.eventID = e ∧ l.webhookKeyID = w ∧ l.deliveryStatus = .pending
      · simp [applyLogOp, updateWebhookLogDeliveredRow, h, h.2.2, statusRank]
      · simp [applyLogOp, updateWebhookLogDeliveredRow, h]
    | acked e t =>
      by_cases h : l.eventID = e
          ∧ (l.deliveryStatus = .pending ∨ l.deliveryStatus = .delivered)
      · rcases h.2 with h2 | h2 <;>
          simp [applyLogOp, updateWebhookLogAckedRow, h, h2, statusRank]
      · simp [applyLogOp, updateWebhookLogAckedRow, h]
  · intro e w s t
    simp [LogTimestampInv, createWebhookLog]
  · intro hinv
    cases op with
    | delivered e w c t =>
      by_cases h : l.eventID = e ∧ l.webhookKeyID = w ∧ l.deliveryStatus = .pending
      · simp [applyLogOp, updateWebhookLogDeliveredRow, h, LogTimestampInv,
          (hinv.1 h.2.2).2]
      · simpa [applyLogOp, updateWebhookLogDeliveredRow, h] using hinv
    | acked e t =>
      by_cases h : l.eventID = e
          ∧ (l.deliveryStatus = .pending ∨ l.deliveryStatus = .delivered)
      · simp [applyLogOp, updateWebhookLogAckedRow, h, LogTimestampInv]
      · simpa [applyLogOp, updateWebhookLogAckedRow, h] using hinv
  · intro hinv t' hset
    cases op with
    | delivered e w c t =>
      by_cases h : l.eventID = e ∧ l.webhookKeyID = w ∧ l.deliveryStatus = .pending
      · exact absurd hset (by simp [(hinv.1 h.2.2).1])
      · simp [applyLogOp, updateWebhookLogDeliveredRow, h, hset]
    | acked e t =>
      by_cases h : l.eventID = e
          ∧ (l.deliveryStatus = .pending ∨ l.deliveryStatus = .delivered)
      · simp [applyLogOp, updateWebhookLogAckedRow, h, hset]
      · simp [applyLogOp, updateWebhookLogAckedRow, h, hset]
  · intro hinv t' hset
    cases op with
    | delivered e w c t =>
      by_cases h : l.eventID = e ∧ l.webhookKeyID = w ∧ l.deliveryStatus = .pending
      · exact absurd hset (by simp [(hinv.1 h.2.2).2])
      · simp [applyLogOp, updateWebhookLogDeliveredRow, h, hset]
    | acked e t =>
      by_cases h : l.eventID = e
          ∧ (l.deliveryStatus = .pending ∨ l.deliveryStatus = .delivered)
      · rcases h.2 with h2 | h2
        · exact absurd hset (by simp [(hinv.1 h2).2])
        · exact absurd hset (by simp [hinv.2 h2])
      · simp [applyLogOp, updateWebhookLogAckedRow, h, hset]
  · intro hne
    cases op with
    | delivered e w c t =>
      by_cases h : l.eventID = e ∧ l.webhookKeyID = w ∧ l.deliveryStatus = .pending
      · exact ⟨h.2.2, by simp [applyLogOp, updateWebhookLogDeliveredRow, h]⟩
      · simp [applyLogOp, updateWebhookLogDeliveredRow, h] at hne
    | acked e t =>
      by_cases h : l.eventID = e
          ∧ (l.deliveryStatus = .pending ∨ l.deliveryStatus = .delivered) <;>
        simp [applyLogOp, updateWebhookLogAckedRow, h] at hne
  · intro hne
    cases op with
    | delivered e w c t =>
      by_cases h : l.eventID = e ∧ l.webhookKeyID = w ∧ l.deliveryStatus = .pending <;>
        simp [applyLogOp, updateWebhookLogDeliveredRow, h] at hne
    | acked e t =>
      by_cases h : l.eventID = e
          ∧ (l.deliveryStatus = .pending ∨ l.deliveryStatus = .delivered)
      · exact ⟨h.2, by simp [applyLogOp, updateWebhookLogAckedRow, h]⟩
      · simp [applyLogOp, updateWebhookLogAckedRow, h] at hne

/-- C6 witness: the acked update at a concrete already-acked row is the
identity, evaluated by applying the theorem at that row. -/
theorem webhook_log_monotone_timestamps_once_witness :
    updateWebhookLogAckedRow 1 9
      { log0 with deliveryStatus := .acked, ackedAt := some 4 }
      = { log0 with deliveryStatus := .acked, ackedAt := some 4 } :=
  (webhook_log_monotone_timestamps_once
      { log0 with deliveryStatus := .acked, ackedAt := some 4 }
      (.acked 1 9)).2.1 1 9 (by decide) (by decide)

/-! ## Pull delivery (src/handlers/sse.go handlePolling,
src/services/event_service.go GetUnprocessedEvents) -/

/-- decryptBytes is the value `Decrypt` returns (it never errors). -/
def decryptBytes (enc : Option GCM) (b : List Nat) : List Nat :=
  match Decrypt enc b with
  | .ok v => v
  | .error _ => b

theorem Decrypt_eq_ok (enc : Option GCM) (b : List Nat) :
    Decrypt enc b = .ok (decryptBytes enc b) := by
  obtain ⟨v, hv⟩ := Decrypt_exists_ok enc b
  simp [decryptBytes, hv]

theorem decryptEventData_eq_ok (enc : Option GCM) (e : Event) :
    decryptEventData enc e = .ok { e with data := decryptBytes enc e.data } := by
  simp [decryptEventData, Decrypt_eq_ok, Except.map]

theorem mapM_ok {α β : Type} (f : α → Except String β) (g : α → β)
    (hf : ∀ a, f a = .ok (g a)) (l : List α) :
    l.mapM f = .ok (l.map g) := by
  induction l with
  | nil => rfl
  | cons a l ih =>
    rw [List.mapM_cons, hf a, ih]
    rfl

/-- getUnprocessedEvents mirrors `EventService.GetUnprocessedEvents`: select
the rows of the producer key with `processed = false` in created-at
ascending order, then decrypt each payload in order. -/
def getUnprocessedEvents (enc : Option GCM) (events : List Event)
    (webhookKeyID : Nat) : Except String (List Event) :=
  ((events.filter
      (fun e => decide (e.webhookKeyID = webhookKeyID ∧ e.processed = false))).mergeSort
      (fun a b => a.createdAt ≤ b.createdAt)).mapM (decryptEventData enc)

/-- PolledEvent is one entry of the pull-mode array: id, path, payload as a
byte string, created-at (the fields `handlePolling` emits per event). -/
structure PolledEvent where
  id : Nat
  path : String
  data : List Nat
  createdAt : Nat
deriving DecidableEq, Repr

/-- PollingResponse is the HTTP response of pull mode. -/
inductive PollingResponse where
  | unauthorized (msg : String)
  | internalError (msg : String)
  | okEvents (events : List PolledEvent)
deriving DecidableEq, Repr

/-- formatPolledEvent is the per-event formatting loop in `handlePolling`. -/
def formatPolledEvent (e : Event) : PolledEvent :=
  { id := e.id, path := e.path, data := e.data, createdAt := e.createdAt }

/-- handlePolling mirrors `SSEHandler.handlePolling` after client-key
resolution (`ck` is the resolved subscriber key row): fetch the unprocessed
backlog of the paired producer key and answer it as a single array, or 500
on a store error. -/
def handlePolling (enc : Option GCM) (s : ServerState) (ck : ClientKey) :
    PollingResponse :=
  match getUnprocessedEvents enc s.events ck.webhookKeyID with
  | .error _ => .internalError "failed to get events"
  | .ok events => .okEvents (events.map formatPolledEvent)

/-- C5: pull mode answers a single array holding exactly the events of the
paired producer key that are unprocessed at the read snapshot, ordered by
created-at ascending, each entry carrying the identifier, path, decrypted
payload and created-at timestamp. -/
theorem polling_returns_exactly_unprocessed_sorted (enc : Option GCM)
    (s : ServerState) (ck : ClientKey) :
    ∃ entries, handlePolling enc s ck = .okEvents entries
      ∧ (∀ p, p ∈ entries ↔ ∃ e ∈ s.events,
          e.webhookKeyID = ck.webhookKeyID ∧ e.processed = false
          ∧ p = { id := e.id, path := e.path,
                  data := decryptBytes enc e.data, createdAt := e.createdAt })
      ∧ entries.Pairwise (fun a b => a.createdAt ≤ b.createdAt) := by
  classical
  set pred := fun e : Event =>
    decide (e.webhookKeyID = ck.webhookKeyID ∧ e.processed = false) with hpred
  set sorted := (s.events.filter pred).mergeSort
    (fun a b => a.createdAt ≤ b.createdAt) with hsorted
  set g := fun e : Event =>
    (⟨e.id, e.path, decryptBytes enc e.data, e.createdAt⟩ : PolledEvent) with hg
  have hfetch : getUnprocessedEvents enc s.events ck.webhookKeyID
      = .ok (sorted.map (fun e => { e with data := decryptBytes enc e.data })) :=
    mapM_ok (decryptEventData enc)
      (fun e => { e with data := decryptBytes enc e.data })
      (decryptEventData_eq_ok enc) sorted
  refine ⟨sorted.map g, ?_, ?_, ?_⟩
  · simp only [handlePolling, hfetch, List.map_map]
    rfl
  · intro p
    have hperm : ∀ e : Event, e ∈ sorted ↔ e ∈ s.events.filter pred :=
    fun e => (List.mergeSort_perm (s.events.filter pred) _).mem_iff
    constructor
    · intro hp
      obtain ⟨e, he, rfl⟩ := List.mem_map.1 hp
      have := (hperm e).1 he
      have hef := List.mem_filter.1 this
      have hcond := of_decide_eq_true hef.2
      exact ⟨e, hef.1, hcond.1, hcond.2, rfl⟩
    · rintro ⟨e, hmem, h1, h2, rfl⟩
      refine List.mem_map.2 ⟨e, (hperm e).2 ?_, rfl⟩
      exact List.mem_filter.2 ⟨hmem, decide_eq_true ⟨h1, h2⟩⟩
  · have hsort : sorted.Pairwise
        (fun a b : Event => a.createdAt ≤ b.createdAt) := by
      have := @List.sorted_mergeSort Event
        (fun a b : Event => decide (a.createdAt ≤ b.createdAt))
        (fun a b c h1 h2 => by
          simp only [decide_eq_true_eq] at h1 h2 ⊢
          omega)
        (fun a b => by
          simp only [Bool.or_eq_true, decide_eq_true_eq]
          omega)
        (s.events.filter pred)
      exact this.imp (fun h => of_decide_eq_true h)
    exact hsort.map g (fun a b h => h)

/-! ## Broadcaster (src/handlers/sse.go BroadcastEvent) -/

/-- SSEEvent mirrors `handlers.SSEEvent`: the hand-off record the webhook
handler publishes for real-time delivery (with its pre-encoded frame). -/
structure SSEEvent where
  eventID : Nat
  webhookKeyID : Nat
  data : String
deriving DecidableEq, Repr

/-- eventChanCapacity is the capacity of each subscriber channel: the
handler creates each client channel with buffer size 10. -/
def eventChanCapacity : Nat := 10

/-- offerEvent is the non-blocking select-send in `BroadcastEvent`: the
record is appended when the buffered channel has room and silently dropped
otherwise. -/
def offerEvent (ch : List SSEEvent) (ev : SSEEvent) : List SSEEvent :=
  if ch.length < eventChanCapacity then ch ++ [ev] else ch

/-- BroadcastEvent mirrors `SSEHandler.BroadcastEvent`: it iterates over all
registered client channels and offers the record to each one. -/
def BroadcastEvent (clients : List (String × List SSEEvent)) (ev : SSEEvent) :
    List (String × List SSEEvent) :=
  clients.map (fun kc => (kc.1, offerEvent kc.2 ev))

/-- C1 counterexample: a record whose producer key is 7 is enqueued on the
channel registered for subscriber key ck_B even though that key is paired
with producer 8, because the broadcaster offers to every registered
channel. -/
theorem broadcast_reaches_unpaired_subscriber :
    ckB.webhookKeyID ≠ 7
    ∧ BroadcastEvent [(ck0.keyValue, []), (ckB.keyValue, [])]
        { eventID := 1, webhookKeyID := 7, data := "d" }
      = [(ck0.keyValue, [{ eventID := 1, webhookKeyID := 7, data := "d" }]),
         (ckB.keyValue, [{ eventID := 1, webhookKeyID := 7, data := "d" }])] :=
  ⟨by decide, rfl⟩

/-- C1 amended: the broadcaster offers the record to every registered
subscriber channel, regardless of which producer the subscriber's key is
paired with: every registered channel with room has the record appended,
and a full channel keeps its contents unchanged (drop-on-overflow). -/
theorem broadcast_enqueues_on_every_channel
    (clients : List (String × List SSEEvent)) (ev : SSEEvent)
    (k : String) (ch : List SSEEvent) (hmem : (k, ch) ∈ clients) :
    (ch.length < eventChanCapacity → (k, ch ++ [ev]) ∈ BroadcastEvent clients ev)
    ∧ (¬ ch.length < eventChanCapacity → (k, ch) ∈ BroadcastEvent clients ev) := by
  constructor
  · intro h
    exact List.mem_map.2 ⟨(k, ch), hmem, by simp [offerEvent, h]⟩
  · intro h
    exact List.mem_map.2 ⟨(k, ch), hmem, by simp [offerEvent, h]⟩

/-- C1 amended witness: the unpaired subscriber ck_B, registered with an
empty channel, receives the concrete record. -/
theorem broadcast_enqueues_on_every_channel_witness :
    (ckB.keyValue, [({ eventID := 1, webhookKeyID := 7, data := "d" } : SSEEvent)])
      ∈ BroadcastEvent [(ck0.keyValue, []), (ckB.keyValue, [])]
          { eventID := 1, webhookKeyID := 7, data := "d" } :=
  (broadcast_enqueues_on_every_channel
      [(ck0.keyValue, []), (ckB.keyValue, [])]
      { eventID := 1, webhookKeyID := 7, data := "d" }
      ckB.keyValue [] (by simp)).1 (by decide)

/-! ## Configuration and ingest TTL (src/config/config.go EventTTL,
src/handlers/webhook.go HandleWebhook, src/services/event_service.go
CreateEvent) -/

/-- loadEventTTLHours mirrors the `EventTTL` field of `config.Load`: the
EVENT_TTL_DAYS environment value (default 30) as a duration in hours. -/
def loadEventTTLHours (envEventTTLDays : Option Nat) : Nat :=
  (envEventTTLDays.getD 30) * 24

/-- webhookTTLHours is the TTL argument `HandleWebhook` hardcodes in its
`CreateEvent` call: 24 * 365 hours. -/
def webhookTTLHours : Nat := 24 * 365

/-- createEvent mirrors `EventService.CreateEvent`'s row construction: the
new row's expires-at is created-at plus the given TTL (here in hours); the
generated UUID is an argument, and `data` holds the storage bytes (the
caller encrypts with `Encrypt` when a key is configured). -/
def createEvent (eventID webhookKeyID : Nat) (path : String) (data : List Nat)
    (ttlHours now : Nat) : Event :=
  { id := eventID, webhookKeyID := webhookKeyID, path := path, data := data,
    processed := false, processedAt := none, createdAt := now,
    expiresAt := now + ttlHours }

/-- C3 divergence: an admitted event's stored expires-at is created-at plus
8760 hours (365 days, the constant `HandleWebhook` passes), while the
configured retention EVENT_TTL_DAYS defaults to 720 hours (30 days) and is
never consulted by the ingest path. -/
theorem ingest_ttl_hardcoded_not_configured :
    (createEvent 1 7 "inbox/a.md" [104] webhookTTLHours 0).expiresAt
        = (createEvent 1 7 "inbox/a.md" [104] webhookTTLHours 0).createdAt + 8760
    ∧ loadEventTTLHours none = 720
    ∧ webhookTTLHours ≠ loadEventTTLHours none := by
  decide

/-! ## Rate limiting (src/middleware/rate_limit.go, which instantiates
golang.org/x/time/rate token buckets; `Limiter.allow` embeds that library's
documented Allow semantics) -/

/-- Limiter models `rate.Limiter` restricted to `Allow`: a token bucket with
refill rate `limit` in tokens per millisecond, capacity `burst`, current
`tokens`, and the time `last` of the latest state change. -/
structure Limiter where
  limit : ℚ
  burst : ℚ
  tokens : ℚ
  last : ℚ
deriving DecidableEq, Repr

/-- advance is the refill step of `rate.Limiter`: tokens accumulated since
`last` at the steady rate, capped at the burst capacity. -/
def Limiter.advance (lim : Limiter) (now : ℚ) : ℚ :=
  min lim.burst (lim.tokens + (now - lim.last) * lim.limit)

/-- allow models `rate.Limiter.Allow`: refill, then consume one token when
at least one is available; a refused request leaves the state unchanged. -/
def Limiter.allow (lim : Limiter) (now : ℚ) : Bool × Limiter :=
  if 1 ≤ lim.advance now then
    (true, { lim with tokens := lim.advance now - 1, last := now })
  else
    (false, lim)

/-- allowRun folds a sequence of request times through one bucket. -/
def allowRun (lim : Limiter) (ts : List ℚ) : List Bool × Limiter :=
  match ts with
  | [] => ([], lim)
  | t :: rest =>
    let r := lim.allow t
    let rr := allowRun r.2 rest
    (r.1 :: rr.1, rr.2)

/-- webhookLimiter is the per-key bucket `NewRateLimitingMiddleware` builds
for the ingest route: rate.Every(minute/100), i.e. one token per 600 ms,
burst 20; a cold bucket starts full at its first use. -/
def webhookLimiter (t0 : ℚ) : Limiter :=
  { limit := 1 / 600, burst := 20, tokens := 20, last := t0 }

theorem allowRun_append (lim : Limiter) (ts us : List ℚ) :
    allowRun lim (ts ++ us)
      = ((allowRun lim ts).1 ++ (allowRun (allowRun lim ts).2 us).1,
         (allowRun (allowRun lim ts).2 us).2) := by
  induction ts generalizing lim with
  | nil => simp [allowRun]
  | cons t ts ih => simp [allowRun, ih]

theorem allowRun_replicate_same (n : Nat) (limit burst q t0 : ℚ)
    (hburst : q ≤ burst) (hn : (n : ℚ) ≤ q) :
    allowRun ⟨limit, burst, q, t0⟩ (List.replicate n t0)
      = (List.replicate n true, ⟨limit, burst, q - n, t0⟩) := by
  induction n generalizing q with
  | zero => simp [allowRun]
  | succ n ih =>
    have hn' : (n : ℚ) + 1 ≤ q := by push_cast at hn; linarith
    have h1 : (1 : ℚ) ≤ q := by
      have : (0 : ℚ) ≤ (n : ℚ) := Nat.cast_nonneg n
      linarith
    have hadv : Limiter.advance ⟨limit, burst, q, t0⟩ t0 = q := by
      unfold Limiter.advance
      simp only [sub_self, zero_mul, add_zero]
      exact min_eq_right hburst
    have hstep : Limiter.allow ⟨limit, burst, q, t0⟩ t0
        = (true, ⟨limit, burst, q - 1, t0⟩) := by
      simp [Limiter.allow, hadv, h1]
    rw [List.replicate_succ]
    simp only [allowRun, hstep]
    rw [ih (q - 1) (by linarith) (by linarith)]
    rw [List.replicate_succ]
    refine congrArg₂ Prod.mk rfl ?_
    have : q - 1 - (n : ℚ) = q - ((n + 1 : Nat) : ℚ) := by push_cast; ring
    rw [this]

theorem webhookLimiter_run20 :
    allowRun (webhookLimiter 0) (List.replicate 20 0)
      = (List.replicate 20 true,
         { limit := 1 / 600, burst := 20, tokens := 0, last := 0 }) := by
  have h := allowRun_replicate_same 20 (1 / 600) 20 20 0 le_rfl (by norm_num)
  rw [webhookLimiter, h]
  norm_num

/-- C9 counterexample: after 20 back-to-back requests at time 0 exhaust the
cold bucket, a 21st request 600 ms later — well within the same minute — is
accepted, because the bucket refills at one token per 600 ms. -/
theorem rate_limit_21st_within_minute_accepted :
    (allowRun (webhookLimiter 0) (List.replicate 20 0 ++ [600])).1
      = List.replicate 20 true ++ [true] := by
  rw [allowRun_append, webhookLimiter_run20]
  have hadv : Limiter.advance
      { limit := 1 / 600, burst := 20, tokens := 0, last := 0 } 600 = 1 := by
    unfold Limiter.advance
    norm_num
  have h1le : (1 : ℚ) ≤ Limiter.advance
      { limit := 1 / 600, burst := 20, tokens := 0, last := 0 } 600 := by
    rw [hadv]
  simp only [allowRun, Limiter.allow, if_pos h1le]

/-- C9 amended: 20 back-to-back requests on a cold bucket are all accepted
and leave it empty; the next request is accepted exactly when at least one
refill interval (600 ms) has elapsed since exhaustion — so an immediate 21st
is rejected, and a request one minute after exhaustion is accepted. -/
theorem rate_limit_burst_and_refill (t : ℚ) :
    (allowRun (webhookLimiter 0) (List.replicate 20 0)).1 = List.replicate 20 true
    ∧ (allowRun (webhookLimiter 0) (List.replicate 20 0)).2
        = { limit := 1 / 600, burst := 20, tokens := 0, last := 0 }
    ∧ (((allowRun (webhookLimiter 0) (List.replicate 20 0)).2.allow t).1 = true
        ↔ 600 ≤ t)
    ∧ ((allowRun (webhookLimiter 0) (List.replicate 20 0)).2.allow 60000).1 = true := by
  have key : ∀ u : ℚ, (1 : ℚ) ≤ Limiter.advance
      { limit := 1 / 600, burst := 20, tokens := 0, last := 0 } u ↔ 600 ≤ u := by
    intro u
    unfold Limiter.advance
    simp only [sub_zero, zero_add, le_min_iff]
    constructor
    · rintro ⟨-, h⟩
      nlinarith
    · intro h
      refine ⟨by norm_num, by nlinarith⟩
  refine ⟨by rw [webhookLimiter_run20], by rw [webhookLimiter_run20], ?_, ?_⟩
  · rw [webhookLimiter_run20]
    simp only [Limiter.allow]
    split
    · next hc => simp [(key t).mp hc]
    · next hc =>
      have hnot : ¬ (600 : ℚ) ≤ t := fun h600 => hc ((key t).mpr h600)
      simp [hnot]
  · rw [webhookLimiter_run20]
    simp only [Limiter.allow]
    rw [if_pos ((key 60000).mpr (by norm_num))]

/-- C5 witness: the pull-mode guarantee instantiated at the concrete state
with one unprocessed event and its paired subscriber key. -/
theorem polling_returns_exactly_unprocessed_sorted_witness :
    ∃ entries, handlePolling none s0 ck0 = .okEvents entries
      ∧ (∀ p, p ∈ entries ↔ ∃ e ∈ s0.events,
          e.webhookKeyID = ck0.webhookKeyID ∧ e.processed = false
          ∧ p = { id := e.id, path := e.path,
                  data := decryptBytes none e.data, createdAt := e.createdAt })
      ∧ entries.Pairwise (fun a b => a.createdAt ≤ b.createdAt) :=
  polling_returns_exactly_unprocessed_sorted none s0 ck0

/-- C9 witness: the refill equivalence evaluated at 600 ms — the first
instant after exhaustion at which a request is accepted again. -/
theorem rate_limit_burst_and_refill_witness :
    (((allowRun (webhookLimiter 0) (List.replicate 20 0)).2.allow 600).1 = true) :=
  (rate_limit_burst_and_refill 600).2.2.1.mpr (by norm_num)
